import Mathlib

/-!
Shallow embedding of the JSON parser of JulesGuesnon/tokyo-rust-meetup.

The repository contains five progressive iterations of a nom-based JSON
parser (packages step-0 .. step-4).  The most complete iteration is
src/packages/step-4/src/main.rs; src/packages/step-1/src/main.rs is an
earlier iteration referenced by one claim.  We embed the parsers over
input modelled as a list of characters.

nom's IResult is Ok((remaining, value)) on success, or
Err(nom::Err::Error e) for a recoverable failure, or
Err(nom::Err::Failure e) for a fatal (committed) failure.  All parsers
here use the complete-input combinators, so Err::Incomplete never
occurs.  Two extra outcomes are modelled explicitly:
  - panic: a Rust panic (the .unwrap() inside u16_hex is reachable);
  - diverge: the recursion fuel of the embedding ran out (an artifact
    of the embedding, never produced by any run with sufficient fuel).
The error payload follows nom's VerboseError over string input: a list
of (remaining input, kind) pairs, where a kind names either an expected
character, a named grammar context, or a nom ErrorKind.
-/

set_option autoImplicit false

namespace Meetup

/-- Parser input: the remaining text, as a list of characters. -/
abbrev Input := List Char

/-- The subset of nom's ErrorKind constructors reachable in this code. -/
inductive NomKind where
  | tagK | eofK | multiSpaceK | alphaNumericK | mapOptK | verifyK
  | sepListK | many0K | oneOfK | escapedK | digitK | floatK
  deriving DecidableEq, Repr

/-- nom's VerboseErrorKind: an expected/offending character, a named
grammar context, or a plain ErrorKind. -/
inductive VKind where
  | charV : Char → VKind
  | ctxV : String → VKind
  | nomV : NomKind → VKind
  deriving DecidableEq, Repr

/-- nom's VerboseError: accumulated (remaining input, kind) entries,
innermost first. -/
abbrev VErr := List (Input × VKind)

/-- VerboseError::from_error_kind. -/
def fromErrorKind (i : Input) (k : NomKind) : VErr := [(i, VKind.nomV k)]

/-- VerboseError::from_char. -/
def fromChar (i : Input) (c : Char) : VErr := [(i, VKind.charV c)]

/-- ContextError::add_context for VerboseError. -/
def addContext (i : Input) (name : String) (e : VErr) : VErr :=
  e ++ [(i, VKind.ctxV name)]

/-- Outcome of running a parser: success with remaining input and a
value, recoverable error, fatal failure, Rust panic, or fuel
exhaustion of the embedding. -/
inductive PRes (α : Type) where
  | ok : Input → α → PRes α
  | err : VErr → PRes α
  | fail : VErr → PRes α
  | panic : PRes α
  | diverge : PRes α
  deriving Repr

namespace PRes

def isOk {α : Type} : PRes α → Bool
  | .ok _ _ => true
  | _ => false

def isErr {α : Type} : PRes α → Bool
  | .err _ => true
  | _ => false

def isFail {α : Type} : PRes α → Bool
  | .fail _ => true
  | _ => false

def isPanic {α : Type} : PRes α → Bool
  | .panic => true
  | _ => false

/-- Sequencing in the style of Rust's question-mark operator on
IResult: continue on Ok, propagate every other outcome. -/
def bind {α β : Type} : PRes α → (Input → α → PRes β) → PRes β
  | .ok i a, f => f i a
  | .err e, _ => .err e
  | .fail e, _ => .fail e
  | .panic, _ => .panic
  | .diverge, _ => .diverge

end PRes

/-- A parser in the shallow embedding. -/
abbrev P (α : Type) := Input → PRes α

/-- nom combinator map. -/
def pmap {α β : Type} (f : P α) (g : α → β) : P β := fun i =>
  (f i).bind fun i1 a => .ok i1 (g a)

/-- nom combinator value. -/
def pvalue {α β : Type} (v : β) (f : P α) : P β := fun i =>
  (f i).bind fun i1 _ => .ok i1 v

/-- nom combinator cut: promote a recoverable error to a failure. -/
def pcut {α : Type} (f : P α) : P α := fun i =>
  match f i with
  | .err e => .fail e
  | r => r

/-- nom combinator preceded. -/
def ppreceded {α β : Type} (f : P α) (g : P β) : P β := fun i =>
  (f i).bind fun i1 _ => g i1

/-- nom combinator terminated. -/
def pterminated {α β : Type} (f : P α) (g : P β) : P α := fun i =>
  (f i).bind fun i1 a => (g i1).bind fun i2 _ => .ok i2 a

/-- nom combinator delimited. -/
def pdelimited {α β γ : Type} (f : P α) (g : P β) (h : P γ) : P β := fun i =>
  (f i).bind fun i1 _ => (g i1).bind fun i2 b => (h i2).bind fun i3 _ => .ok i3 b

/-- nom combinator separated_pair. -/
def pseparatedPair {α β γ : Type} (f : P α) (s : P β) (g : P γ) : P (α × γ) := fun i =>
  (f i).bind fun i1 a => (s i1).bind fun i2 _ => (g i2).bind fun i3 c => .ok i3 (a, c)

/-- nom combinator peek: run a parser without consuming input. -/
def ppeek {α : Type} (f : P α) : P α := fun i =>
  match f i with
  | .ok _ a => .ok i a
  | r => r

/-- nom combinator context: label errors and failures with a grammar
rule name. -/
def pcontext {α : Type} (name : String) (f : P α) : P α := fun i =>
  match f i with
  | .err e => .err (addContext i name e)
  | .fail e => .fail (addContext i name e)
  | r => r

/-- nom combinator alt over two alternatives: on a recoverable error of
the first, try the second (VerboseError's or-combination keeps the
later error). -/
def palt2 {α : Type} (f g : P α) : P α := fun i =>
  match f i with
  | .err _ => g i
  | r => r

/-- nom's anychar: take one character, recoverable Eof error at end of
input. -/
def anychar : P Char := fun i =>
  match i with
  | c :: r => .ok r c
  | [] => .err (fromErrorKind i .eofK)

/-- nom's char combinator: match one expected character; the error
names the expected character. -/
def pchar (c : Char) : P Char := fun i =>
  match i with
  | x :: r => if x = c then .ok r c else .err (fromChar i c)
  | [] => .err (fromChar i c)

/-- nom's tag: match an exact keyword. -/
def ptag (t : Input) : P Input := fun i =>
  if i.take t.length = t then .ok (i.drop t.length) t
  else .err (fromErrorKind i .tagK)

/-- nom's take(n) over characters: recoverable Eof error when fewer
than n characters remain. -/
def ptake (n : Nat) : P Input := fun i =>
  if i.length < n then .err (fromErrorKind i .eofK)
  else .ok (i.drop n) (i.take n)

/-- The whitespace set of multispace0 and multispace1: space, tab,
carriage return, line feed. -/
def isWS (c : Char) : Bool := c = ' ' || c = '\t' || c = '\r' || c = '\n'

/-- nom's multispace0: consume a possibly empty whitespace run; always
succeeds. -/
def multispace0 : P Input := fun i =>
  .ok (i.dropWhile isWS) (i.takeWhile isWS)

/-- nom's multispace1: consume a nonempty whitespace run; recoverable
error otherwise. -/
def multispace1 : P Input := fun i =>
  if (i.takeWhile isWS).isEmpty then .err (fromErrorKind i .multiSpaceK)
  else .ok (i.dropWhile isWS) (i.takeWhile isWS)

/-- many0(multispace1) as used at the head of json_value.  nom's many0
loop with its consumed-nothing check; the collected runs themselves are
unused by the caller and dropped.  The fuel only bounds the embedding's
loop unrolling; two iterations always suffice because multispace1
consumes a maximal whitespace run. -/
def many0Ws : Nat → P Unit
  | 0, _ => .diverge
  | fuel + 1, i =>
    match multispace1 i with
    | .ok i1 _ =>
      if i1.length = i.length then .err (fromErrorKind i .many0K)
      else many0Ws fuel i1
    | .err _ => .ok i ()
    | .fail e => .fail e
    | .panic => .panic
    | .diverge => .diverge

/-! ## The step-4 value model -/

/-- JsonValue of step-4.  Two deliberate representation choices of the
embedding: strings are kept as character lists (the source builds a
Rust String by pushing decoded chars one at a time), and the Num
variant keeps the recognized numeric text instead of the f64 the
source converts it to, because no claim inspects a numeric value and
IEEE-754 arithmetic is outside the embedding.  Objects are association
lists built with last-write-wins insertion, matching the observable
content of the HashMap collect in the source. -/
inductive JsonValue where
  | Null : JsonValue
  | Str : List Char → JsonValue
  | Boolean : Bool → JsonValue
  | Num : List Char → JsonValue
  | Array : List JsonValue → JsonValue
  | Object : List (List Char × JsonValue) → JsonValue
  deriving Repr

/-- Insert into an association list with map-overwrite semantics: a
later binding of an existing key replaces the earlier value. -/
def insertKV (m : List (List Char × JsonValue)) (k : List Char) (v : JsonValue) :
    List (List Char × JsonValue) :=
  match m with
  | [] => [(k, v)]
  | (k0, v0) :: rest =>
    if k0 = k then (k0, v) :: rest else (k0, v0) :: insertKV rest k v

/-- tuple_vec.into_iter().collect::<HashMap<_, _>>() — sequential
inserts, so a duplicated key keeps the value of its last occurrence. -/
def collectPairs (ps : List (List Char × JsonValue)) : List (List Char × JsonValue) :=
  ps.foldl (fun m kv => insertKV m kv.1 kv.2) []

/-! ## step-4 leaf parsers -/

/-- fn parse_true: value(true, tag("true")). -/
def parse_true : P Bool := pvalue true (ptag "true".toList)

/-- fn parse_false: value(false, tag("false")). -/
def parse_false : P Bool := pvalue false (ptag "false".toList)

/-- fn null: value((), tag("null")). -/
def nullP : P Unit := pvalue () (ptag "null".toList)

/-- One hex digit as in Rust's char::to_digit(16). -/
def hexDigit? (c : Char) : Option Nat :=
  if '0' ≤ c ∧ c ≤ '9' then some (c.toNat - 48)
  else if 'a' ≤ c ∧ c ≤ 'f' then some (c.toNat - 87)
  else if 'A' ≤ c ∧ c ≤ 'F' then some (c.toNat - 55)
  else none

/-- Digit-accumulation loop of Rust's u16::from_str_radix with the u16
overflow check. -/
def hexAccum : List Char → Nat → Option Nat
  | [], acc => some acc
  | c :: rest, acc =>
    match hexDigit? c with
    | some d =>
      let v := acc * 16 + d
      if v < 65536 then hexAccum rest v else none
    | none => none

/-- Rust's u16::from_str_radix(s, 16): empty input is an error, a
leading plus sign is accepted (but not alone), a minus sign is an
error for an unsigned type, and the digits must all be hex digits with
the result fitting in 16 bits.  None models Err. -/
def u16FromStrRadix16 (s : List Char) : Option Nat :=
  match s with
  | [] => none
  | c :: rest =>
    if c = '+' then (if rest.isEmpty then none else hexAccum rest 0)
    else if c = '-' then none
    else hexAccum s 0

/-- fn u16_hex: map(take(4), |s| u16::from_str_radix(s, 16).unwrap()).
The .unwrap() panics when the four taken characters are not a valid
hex number, which the panic outcome records. -/
def u16_hex : P Nat := fun i =>
  (ptake 4 i).bind fun r s =>
    match u16FromStrRadix16 s with
    | some v => .ok r v
    | none => .panic

/-- std::char::from_u32: some character for every valid Unicode scalar
value, none for surrogates and out-of-range values. -/
def charFromU32 (n : Nat) : Option Char :=
  if n < 0xD800 then some (Char.ofNat n)
  else if 0xE000 ≤ n ∧ n < 0x110000 then some (Char.ofNat n)
  else none

/-- First alt branch of fn unicode_escape:
map(verify(u16_hex, not a surrogate), cp as u32). -/
def ueDirect : P Nat := fun i =>
  (u16_hex i).bind fun r cp =>
    if ¬(0xD800 ≤ cp ∧ cp < 0xE000) then .ok r cp
    else .err (fromErrorKind i .verifyK)

/-- Second alt branch of fn unicode_escape: a verified surrogate pair
separated_pair(u16_hex, tag("\u"), u16_hex), combined as
((high - 0xD800) << 10) + (low - 0xDC00) + 0x10000. -/
def uePair : P Nat := fun i =>
  ((pseparatedPair u16_hex (ptag ['\\', 'u']) u16_hex) i).bind fun r hl =>
    if (0xD800 ≤ hl.1 ∧ hl.1 < 0xDC00) ∧ (0xDC00 ≤ hl.2 ∧ hl.2 < 0xE000) then
      .ok r (((hl.1 - 0xD800) <<< 10) + (hl.2 - 0xDC00) + 0x10000)
    else .err (fromErrorKind i .verifyK)

/-- fn unicode_escape: map_opt(alt((direct, pair)), char::from_u32);
map_opt fails recoverably when from_u32 returns none. -/
def unicode_escape : P Char := fun i =>
  match palt2 ueDirect uePair i with
  | .ok r n =>
    match charFromU32 n with
    | some c => .ok r c
    | none => .err (fromErrorKind i .mapOptK)
  | .err e => .err e
  | .fail e => .fail e
  | .panic => .panic
  | .diverge => .diverge

/-- fn parse_char: one decoded string character.  A closing quote is a
recoverable error (it ends the enclosing fold); an unrecognized escape
designator is a fatal failure; a u designator defers to
unicode_escape. -/
def parse_char : P Char := fun i =>
  (anychar i).bind fun i1 c =>
    if c = '"' then .err (fromChar i1 c)
    else if c = '\\' then
      (anychar i1).bind fun i2 e =>
        match e with
        | '"' => .ok i2 e
        | '\\' => .ok i2 e
        | '/' => .ok i2 e
        | 'b' => .ok i2 '\x08'
        | 'f' => .ok i2 '\x0C'
        | 'n' => .ok i2 '\n'
        | 'r' => .ok i2 '\r'
        | 't' => .ok i2 '\t'
        | 'u' => unicode_escape i2
        | c2 => .fail (fromChar i2 c2)
    else .ok i1 c

/-- fold_many0(parse_char, String::new, push) — the body of fn string,
with nom's consumed-nothing check.  The fuel only bounds the loop
unrolling of the embedding; length-of-input plus one always suffices
because parse_char consumes at least one character on success. -/
def foldChars : Nat → Input → List Char → PRes (List Char)
  | 0, _, _ => .diverge
  | fuel + 1, i, acc =>
    match parse_char i with
    | .ok i1 c =>
      if i1.length = i.length then .err (fromErrorKind i .many0K)
      else foldChars fuel i1 (acc ++ [c])
    | .err _ => .ok i acc
    | .fail e => .fail e
    | .panic => .panic
    | .diverge => .diverge

/-- fn string: context("string", preceded(cut(tag(quote)),
terminated(fold_many0(parse_char, ...), cut(char(quote))))). -/
def stringP : P (List Char) := fun i =>
  pcontext "string"
    (ppreceded (pcut (ptag ['"']))
      (pterminated (fun j => foldChars (j.length + 1) j []) (pcut (pchar '"')))) i

/-! ## The number parser

nom 7's number::complete::double recognizes a float literal with
recognize_float_or_exceptions and converts the recognized text with
str::parse::<f64>.  The embedding keeps the recognized text (see the
comment on JsonValue); the grammar and the error/failure behavior are
modelled faithfully, including the cut on the exponent digits. -/

/-- nom's digit1: a nonempty run of ascii digits. -/
def digit1 : P Input := fun i =>
  let d := i.takeWhile Char.isDigit
  if d.isEmpty then .err (fromErrorKind i .digitK)
  else .ok (i.dropWhile Char.isDigit) d

/-- nom's recognize_float on character lists, returning the remaining
input (the recognized slice is the consumed prefix):
opt sign, then (digit1 opt(dot opt digit1) | dot digit1), then
opt((e|E) opt sign cut(digit1)). -/
def recognizeFloatRest : P Unit := fun i =>
  -- opt(alt((char('+'), char('-'))))
  let i1 := match i with
    | c :: r => if c = '+' || c = '-' then r else i
    | [] => i
  -- alt((tuple((digit1, opt(pair(char('.'), opt(digit1))))), tuple((char('.'), digit1))))
  let mantissa : PRes Unit :=
    match digit1 i1 with
    | .ok i2 _ =>
      let i3 := match i2 with
        | '.' :: r => r.dropWhile Char.isDigit
        | _ => i2
      .ok i3 ()
    | .err _ =>
      match i1 with
      | '.' :: r =>
        match digit1 r with
        | .ok i3 _ => .ok i3 ()
        | .err e => .err e
        | .fail e => .fail e
        | .panic => .panic
        | .diverge => .diverge
      | _ => .err (fromChar i1 '.')
    | .fail e => .fail e
    | .panic => .panic
    | .diverge => .diverge
  mantissa.bind fun i4 _ =>
    -- opt(tuple((alt((char('e'), char('E'))), opt sign, cut(digit1))))
    match i4 with
    | c :: r =>
      if c = 'e' || c = 'E' then
        let r1 := match r with
          | s :: r2 => if s = '+' || s = '-' then r2 else r
          | [] => r
        match digit1 r1 with
        | .ok i5 _ => .ok i5 ()
        | .err e => .fail e
        | .fail e => .fail e
        | .panic => .panic
        | .diverge => .diverge
      else .ok i4 ()
    | [] => .ok i4 ()

/-- Case-insensitive tag, as nom's tag_no_case over ascii. -/
def ptagNoCase (t : Input) : P Input := fun i =>
  if (i.take t.length).map Char.toLower = t.map Char.toLower then
    .ok (i.drop t.length) (i.take t.length)
  else .err (fromErrorKind i .tagK)

/-- nom's double, with recognize_float_or_exceptions: the float
grammar first (its recoverable error reported as ErrorKind::Float),
then the nan / inf / infinity exceptions.  Returns the recognized
text. -/
def double : P Input := fun i =>
  match recognizeFloatRest i with
  | .ok r _ => .ok r (i.take (i.length - r.length))
  | .err _ =>
    match ptagNoCase "nan".toList i with
    | .ok r s => .ok r s
    | .err _ =>
      match ptagNoCase "inf".toList i with
      | .ok r s => .ok r s
      | .err _ =>
        match ptagNoCase "infinity".toList i with
        | .ok r s => .ok r s
        | .err _ => .err (fromErrorKind i .floatK)
        | e => e
      | e => e
    | e => e
  | .fail e => .fail e
  | .panic => .panic
  | .diverge => .diverge

/-! ## The mutually recursive grammar of step-4

The recursion of json_value through the containers is bounded by a
fuel parameter that every function of the knot decrements on entry; a
run out of fuel yields the diverge outcome.  With the generous fuel
chosen by fn parse below, fuel exhaustion is unreachable because every
level of the grammar consumes at least one input character. -/

/-- preceded(multispace0, char(',')): the element separator of both
containers. -/
def sepComma : P Char := ppreceded multispace0 (pchar ',')

mutual

/-- fn json_value: skip whitespace, then dispatch on one peeked
character: objects, arrays, strings, numbers, the three keyword
literals, and a fatal unexpected-character failure naming the
character for everything else. -/
def json_value : Nat → P JsonValue
  | 0, _ => .diverge
  | fuel + 1, i =>
    (many0Ws (fuel + 1) i).bind fun i1 _ =>
      (ppeek anychar i1).bind fun i2 c =>
        if c = '{' then pmap (hashP fuel) JsonValue.Object i2
        else if c = '[' then pmap (arrayP fuel) JsonValue.Array i2
        else if c = '"' then pmap stringP JsonValue.Str i2
        else if c = '-' ∨ ('0' ≤ c ∧ c ≤ '9') then pmap double JsonValue.Num i2
        else if c = 'f' then pmap parse_false JsonValue.Boolean i2
        else if c = 't' then pmap parse_true JsonValue.Boolean i2
        else if c = 'n' then pmap nullP (fun _ => JsonValue.Null) i2
        else .fail (fromChar i2 c)

/-- The element closure of fn array: peek one character, reject a
closing bracket (recoverably — this is the trailing-comma guard), and
otherwise parse a value. -/
def arrayElem : Nat → P JsonValue
  | 0, _ => .diverge
  | fuel + 1, i =>
    (ppeek anychar i).bind fun i0 c =>
      if c = ']' then .err (fromChar i0 c)
      else json_value fuel i0

/-- separated_list0(preceded(multispace0, char(',')), element) for fn
array: first element attempt, then the separator loop. -/
def arrayElems : Nat → P (List JsonValue)
  | 0, _ => .diverge
  | fuel + 1, i =>
    match arrayElem fuel i with
    | .ok i1 v => arrayLoop fuel i1 [v]
    | .err _ => .ok i []
    | .fail e => .fail e
    | .panic => .panic
    | .diverge => .diverge

/-- The loop of separated_list0 for arrays, with nom's check that the
separator consumed input; a failing element attempt ends the list at
the position before the separator. -/
def arrayLoop : Nat → Input → List JsonValue → PRes (List JsonValue)
  | 0, _, _ => .diverge
  | fuel + 1, i, acc =>
    match sepComma i with
    | .ok i1 _ =>
      if i1.length = i.length then .err (fromErrorKind i1 .sepListK)
      else
        match arrayElem fuel i1 with
        | .ok i2 v => arrayLoop fuel i2 (acc ++ [v])
        | .err _ => .ok i acc
        | .fail e => .fail e
        | .panic => .panic
        | .diverge => .diverge
    | .err _ => .ok i acc
    | .fail e => .fail e
    | .panic => .panic
    | .diverge => .diverge

/-- fn array: context("array", delimited(cut(char('[')),
cut(separated_list0(sep, element)), preceded(multispace0,
char(']')))).  Note that the closing bracket parser is outside every
cut. -/
def arrayP : Nat → P (List JsonValue)
  | 0, _ => .diverge
  | fuel + 1, i =>
    pcontext "array"
      (pdelimited (pcut (pchar '['))
        (pcut (arrayElems fuel))
        (ppreceded multispace0 (pchar ']'))) i

/-- fn key_value: skip whitespace, peek one character, reject a
closing brace (recoverably — the trailing-comma guard), then
separated_pair(string, cut(preceded(multispace0, char(':'))),
json_value). -/
def key_value : Nat → P (List Char × JsonValue)
  | 0, _ => .diverge
  | fuel + 1, i =>
    (multispace0 i).bind fun i1 _ =>
      (ppeek anychar i1).bind fun i2 c =>
        if c = '}' then .err (fromChar i2 c)
        else
          pseparatedPair stringP
            (pcut (ppreceded multispace0 (pchar ':')))
            (json_value fuel) i2

/-- separated_list0(preceded(multispace0, char(',')), key_value) for
fn hash. -/
def kvElems : Nat → P (List (List Char × JsonValue))
  | 0, _ => .diverge
  | fuel + 1, i =>
    match key_value fuel i with
    | .ok i1 kv => kvLoop fuel i1 [kv]
    | .err _ => .ok i []
    | .fail e => .fail e
    | .panic => .panic
    | .diverge => .diverge

/-- The loop of separated_list0 for objects. -/
def kvLoop : Nat → Input → List (List Char × JsonValue) →
    PRes (List (List Char × JsonValue))
  | 0, _, _ => .diverge
  | fuel + 1, i, acc =>
    match sepComma i with
    | .ok i1 _ =>
      if i1.length = i.length then .err (fromErrorKind i1 .sepListK)
      else
        match key_value fuel i1 with
        | .ok i2 kv => kvLoop fuel i2 (acc ++ [kv])
        | .err _ => .ok i acc
        | .fail e => .fail e
        | .panic => .panic
        | .diverge => .diverge
    | .err _ => .ok i acc
    | .fail e => .fail e
    | .panic => .panic
    | .diverge => .diverge

/-- fn hash: context("map", preceded(cut(tag(open-brace)),
cut(terminated(map(separated_list0(sep, key_value), collect),
preceded(multispace0, char(close-brace)))))).  Unlike fn array, the
closing delimiter is inside the cut. -/
def hashP : Nat → P (List (List Char × JsonValue))
  | 0, _ => .diverge
  | fuel + 1, i =>
    pcontext "map"
      (ppreceded (pcut (ptag ['{']))
        (pcut (pterminated
          (pmap (kvElems fuel) collectPairs)
          (ppreceded multispace0 (pchar '}'))))) i

end

/-- fn parse of step-4: terminated(json_value, multispace0).  The fuel
handed to the knot is an embedding artifact; four times the input
length plus four strictly exceeds the number of fueled entries any run
can make, since each entered grammar level and each loop iteration
consumes at least one character. -/
def parse : P JsonValue := fun i =>
  pterminated (json_value (4 * i.length + 4)) multispace0 i

/-! ## The step-1 iteration

src/packages/step-1/src/main.rs is an earlier iteration of the same
parser.  Its value model is the same enum; the embedding reuses
JsonValue.  The notable differences: whitespace is the take_while
based fn sp, strings are matched with nom's escaped combinator and
kept as the raw slice, the value dispatcher is an alt over all six
productions, and the top level parses only an object, an array, or
null, wrapped in whitespace. -/

namespace Step1

/-- fn sp: take_while over the characters space, tab, carriage return,
line feed; always succeeds. -/
def sp : P Input := fun i =>
  .ok (i.dropWhile isWS) (i.takeWhile isWS)

/-- fn boolean: alt(value(true, tag("true")), value(false,
tag("false"))). -/
def boolean : P Bool :=
  palt2 (pvalue true (ptag "true".toList)) (pvalue false (ptag "false".toList))

/-- nom's alphanumeric1: a nonempty run of ascii letters and digits. -/
def alphanumeric1 : P Input := fun i =>
  let a := i.takeWhile Char.isAlphanum
  if a.isEmpty then .err (fromErrorKind i .alphaNumericK)
  else .ok (i.dropWhile Char.isAlphanum) a

/-- one_of("\"n\\") — the escapable characters of fn parse_str. -/
def oneOfEsc : P Char := fun i =>
  match i with
  | c :: r =>
    if c = '"' || c = 'n' || c = '\\' then .ok r c
    else .err (fromErrorKind i .oneOfK)
  | [] => .err (fromErrorKind i .oneOfK)

/-- The loop of nom's escaped(alphanumeric1, backslash, one_of)
combinator: alternating normal runs and backslash escapes, returning
the remaining input after the matched prefix.  The first argument is
the original input (for the slice bookkeeping of the source), the
third the current position.  The fuel bounds the unrolling; each
iteration consumes at least one character, so length-plus-one
suffices. -/
def escapedGo : Nat → Input → Input → PRes Input
  | 0, _, _ => .diverge
  | fuel + 1, input, i =>
    if i.length = 0 then .ok [] input
    else
      match alphanumeric1 i with
      | .ok i2 _ =>
        if i2.length = 0 then .ok [] input
        else if i2.length = i.length then .ok i2 (input.take (input.length - i2.length))
        else escapedGo fuel input i2
      | .err _ =>
        match i with
        | c :: rest =>
          if c = '\\' then
            if rest.length = 0 then .err (fromErrorKind input .escapedK)
            else
              match oneOfEsc rest with
              | .ok i2 _ =>
                if i2.length = 0 then .ok [] input
                else escapedGo fuel input i2
              | .err e => .err e
              | .fail e => .fail e
              | .panic => .panic
              | .diverge => .diverge
          else
            if i.length = input.length then .err (fromErrorKind input .escapedK)
            else .ok i (input.take (input.length - i.length))
        | [] => .err (fromErrorKind input .escapedK)
      | .fail e => .fail e
      | .panic => .panic
      | .diverge => .diverge

/-- fn parse_str: escaped(alphanumeric, backslash, one_of("\"n\\")). -/
def parse_str : P Input := fun i => escapedGo (i.length + 1) i i

/-- fn string of step-1: preceded(char(quote),
cut(terminated(parse_str, char(quote)))), labelled "string"; the
opening quote itself is not committed. -/
def string1 : P Input := fun i =>
  pcontext "string"
    (ppreceded (pchar '"') (pcut (pterminated parse_str (pchar '"')))) i

/-- preceded(sp, char(',')): step-1's element separator. -/
def sepComma1 : P Char := ppreceded sp (pchar ',')

mutual

/-- fn json_value of step-1: preceded(sp, alt((object, array, string,
boolean, null, double))) — a backtracking choice over all six
productions instead of step-4's committed single-character dispatch. -/
def json_value1 : Nat → P JsonValue
  | 0, _ => .diverge
  | fuel + 1, i =>
    (sp i).bind fun i1 _ =>
      match pmap (hash1 fuel) JsonValue.Object i1 with
      | .err _ =>
        match pmap (array1 fuel) JsonValue.Array i1 with
        | .err _ =>
          match pmap string1 JsonValue.Str i1 with
          | .err _ =>
            match pmap boolean JsonValue.Boolean i1 with
            | .err _ =>
              match pmap nullP (fun _ => JsonValue.Null) i1 with
              | .err _ => pmap double JsonValue.Num i1
              | r => r
            | r => r
          | r => r
        | r => r
      | r => r

/-- separated_list0(preceded(sp, char(',')), json_value) for step-1's
fn array: first element attempt, then the separator loop.  No
trailing-comma guard exists in this iteration. -/
def arrayElems1 : Nat → P (List JsonValue)
  | 0, _ => .diverge
  | fuel + 1, i =>
    match json_value1 fuel i with
    | .ok i1 v => arrayLoop1 fuel i1 [v]
    | .err _ => .ok i []
    | .fail e => .fail e
    | .panic => .panic
    | .diverge => .diverge

/-- The separator loop of step-1's array list. -/
def arrayLoop1 : Nat → Input → List JsonValue → PRes (List JsonValue)
  | 0, _, _ => .diverge
  | fuel + 1, i, acc =>
    match sepComma1 i with
    | .ok i1 _ =>
      if i1.length = i.length then .err (fromErrorKind i1 .sepListK)
      else
        match json_value1 fuel i1 with
        | .ok i2 v => arrayLoop1 fuel i2 (acc ++ [v])
        | .err _ => .ok i acc
        | .fail e => .fail e
        | .panic => .panic
        | .diverge => .diverge
    | .err _ => .ok i acc
    | .fail e => .fail e
    | .panic => .panic
    | .diverge => .diverge

/-- fn array of step-1: context("array", preceded(char('['),
cut(terminated(separated_list0(sep, json_value), preceded(sp,
char(']')))))).  The opening bracket is uncommitted; everything after
it is cut. -/
def array1 : Nat → P (List JsonValue)
  | 0, _ => .diverge
  | fuel + 1, i =>
    pcontext "array"
      (ppreceded (pchar '[')
        (pcut (pterminated (arrayElems1 fuel) (ppreceded sp (pchar ']'))))) i

/-- fn key_value of step-1: separated_pair(preceded(sp, string),
cut(preceded(sp, char(':'))), json_value). -/
def key_value1 : Nat → P (Input × JsonValue)
  | 0, _ => .diverge
  | fuel + 1, i =>
    pseparatedPair (ppreceded sp string1)
      (pcut (ppreceded sp (pchar ':')))
      (json_value1 fuel) i

/-- separated_list0(preceded(sp, char(',')), key_value) for step-1's
fn hash. -/
def kvElems1 : Nat → P (List (Input × JsonValue))
  | 0, _ => .diverge
  | fuel + 1, i =>
    match key_value1 fuel i with
    | .ok i1 kv => kvLoop1 fuel i1 [kv]
    | .err _ => .ok i []
    | .fail e => .fail e
    | .panic => .panic
    | .diverge => .diverge

/-- The separator loop of step-1's key-value list. -/
def kvLoop1 : Nat → Input → List (Input × JsonValue) →
    PRes (List (Input × JsonValue))
  | 0, _, _ => .diverge
  | fuel + 1, i, acc =>
    match sepComma1 i with
    | .ok i1 _ =>
      if i1.length = i.length then .err (fromErrorKind i1 .sepListK)
      else
        match key_value1 fuel i1 with
        | .ok i2 kv => kvLoop1 fuel i2 (acc ++ [kv])
        | .err _ => .ok i acc
        | .fail e => .fail e
        | .panic => .panic
        | .diverge => .diverge
    | .err _ => .ok i acc
    | .fail e => .fail e
    | .panic => .panic
    | .diverge => .diverge

/-- fn hash of step-1: context("map", preceded(char(open-brace),
cut(terminated(map(separated_list0(sep, key_value), collect with
String::from on the keys), preceded(sp, char(close-brace)))))). -/
def hash1 : Nat → P (List (List Char × JsonValue))
  | 0, _ => .diverge
  | fuel + 1, i =>
    pcontext "map"
      (ppreceded (pchar '{')
        (pcut (pterminated
          (pmap (kvElems1 fuel) collectPairs)
          (ppreceded sp (pchar '}'))))) i

end

/-- fn parse of step-1: delimited(sp, alt((map(hash, Object),
map(array, Array), map(null, Null))), sp) — the top level of this
iteration accepts only the object, array, and null productions. -/
def parse1 : P JsonValue := fun i =>
  pdelimited sp
    (fun j =>
      match pmap (hash1 (4 * i.length + 4)) JsonValue.Object j with
      | .err _ =>
        match pmap (array1 (4 * i.length + 4)) JsonValue.Array j with
        | .err _ => pmap nullP (fun _ => JsonValue.Null) j
        | r => r
      | r => r)
    sp i

end Step1

/-! ## Combinator-level lemmas -/

theorem pcut_not_err {α : Type} (f : P α) (i : Input) :
    (pcut f i).isErr = false := by
  unfold pcut
  cases f i <;> simp [PRes.isErr]

theorem pcontext_isErr {α : Type} (name : String) (f : P α) (i : Input) :
    (pcontext name f i).isErr = (f i).isErr := by
  unfold pcontext
  cases f i <;> simp [PRes.isErr]

/-- Once the opening brace of fn hash is consumed (indeed, as soon as
fn hash is entered), every failure is fatal: the whole body of fn hash
sits inside cut, so hash never produces a recoverable error. -/
theorem hashP_not_err (fuel : Nat) (i : Input) : (hashP fuel i).isErr = false := by
  cases fuel with
  | zero => rfl
  | succ f =>
    show (pcontext "map" _ i).isErr = false
    rw [pcontext_isErr]
    unfold ppreceded
    cases h : pcut (ptag ['{']) i with
    | ok i1 a => simpa [PRes.bind] using pcut_not_err _ i1
    | err e =>
      have := pcut_not_err (ptag ['{']) i
      rw [h] at this
      simp [PRes.isErr] at this
    | fail e => rfl
    | panic => rfl
    | diverge => rfl

/-! ## Consumption lemmas for the string decoder -/

theorem ptake_ok_length {n : Nat} {i r s : Input} (h : ptake n i = .ok r s) :
    r.length + n = i.length ∧ n ≤ i.length := by
  unfold ptake at h
  split at h
  · exact absurd h (by simp)
  · next hn =>
    cases h
    constructor
    · simp [List.length_drop]; omega
    · omega

theorem u16_hex_ok_length {i r : Input} {v : Nat} (h : u16_hex i = .ok r v) :
    r.length + 4 = i.length := by
  unfold u16_hex at h
  cases ht : ptake 4 i with
  | ok r1 s1 =>
    rw [ht] at h
    simp only [PRes.bind] at h
    cases hs : u16FromStrRadix16 s1 with
    | some w => rw [hs] at h; cases h; exact (ptake_ok_length ht).1
    | none => rw [hs] at h; exact absurd h (by simp)
  | err e => rw [ht] at h; exact absurd h (by simp [PRes.bind])
  | fail e => rw [ht] at h; exact absurd h (by simp [PRes.bind])
  | panic => rw [ht] at h; exact absurd h (by simp [PRes.bind])
  | diverge => rw [ht] at h; exact absurd h (by simp [PRes.bind])

theorem ptag_ok_length {t i r s : Input} (h : ptag t i = .ok r s) :
    r.length + t.length = i.length ∧ t.length ≤ i.length := by
  unfold ptag at h
  split at h
  · next ht =>
    cases h
    have : t.length ≤ i.length := by
      have := congrArg List.length ht
      simp [List.length_take] at this
      omega
    constructor
    · simp [List.length_drop]; omega
    · exact this
  · exact absurd h (by simp)

theorem ueDirect_ok_length {i r : Input} {v : Nat} (h : ueDirect i = .ok r v) :
    r.length + 4 = i.length := by
  unfold ueDirect at h
  cases hu : u16_hex i with
  | ok r1 cp =>
    rw [hu] at h
    simp only [PRes.bind] at h
    split at h
    · cases h; exact u16_hex_ok_length hu
    · exact absurd h (by simp)
  | err e => rw [hu] at h; exact absurd h (by simp [PRes.bind])
  | fail e => rw [hu] at h; exact absurd h (by simp [PRes.bind])
  | panic => rw [hu] at h; exact absurd h (by simp [PRes.bind])
  | diverge => rw [hu] at h; exact absurd h (by simp [PRes.bind])

theorem uePair_ok_length {i r : Input} {v : Nat} (h : uePair i = .ok r v) :
    r.length + 10 = i.length := by
  unfold uePair pseparatedPair at h
  cases h1 : u16_hex i with
  | ok r1 hi =>
    rw [h1] at h
    simp only [PRes.bind] at h
    cases h2 : ptag ['\\', 'u'] r1 with
    | ok r2 s2 =>
      rw [h2] at h
      simp only [PRes.bind] at h
      cases h3 : u16_hex r2 with
      | ok r3 lo =>
        rw [h3] at h
        simp only [PRes.bind] at h
        split at h
        · cases h
          have e1 := u16_hex_ok_length h1
          have e2 := (ptag_ok_length h2).1
          have e3 := u16_hex_ok_length h3
          simp at e2
          omega
        · exact absurd h (by simp)
      | err e => rw [h3] at h; exact absurd h (by simp)
      | fail e => rw [h3] at h; exact absurd h (by simp)
      | panic => rw [h3] at h; exact absurd h (by simp)
      | diverge => rw [h3] at h; exact absurd h (by simp)
    | err e => rw [h2] at h; exact absurd h (by simp)
    | fail e => rw [h2] at h; exact absurd h (by simp)
    | panic => rw [h2] at h; exact absurd h (by simp)
    | diverge => rw [h2] at h; exact absurd h (by simp)
  | err e => rw [h1] at h; exact absurd h (by simp [PRes.bind])
  | fail e => rw [h1] at h; exact absurd h (by simp [PRes.bind])
  | panic => rw [h1] at h; exact absurd h (by simp [PRes.bind])
  | diverge => rw [h1] at h; exact absurd h (by simp [PRes.bind])

theorem unicode_escape_ok_length {i r : Input} {c : Char}
    (h : unicode_escape i = .ok r c) : r.length < i.length := by
  unfold unicode_escape palt2 at h
  cases hd : ueDirect i with
  | ok r1 n =>
    rw [hd] at h
    dsimp only at h
    cases hc : charFromU32 n with
    | some ch =>
      rw [hc] at h; cases h
      have := ueDirect_ok_length hd
      omega
    | none => rw [hc] at h; exact absurd h (by simp)
  | err e1 =>
    rw [hd] at h
    dsimp only at h
    cases hp : uePair i with
    | ok r2 n =>
      rw [hp] at h
      dsimp only at h
      cases hc : charFromU32 n with
      | some ch =>
        rw [hc] at h; cases h
        have := uePair_ok_length hp
        omega
      | none => rw [hc] at h; exact absurd h (by simp)
    | err e => rw [hp] at h; exact absurd h (by simp)
    | fail e => rw [hp] at h; exact absurd h (by simp)
    | panic => rw [hp] at h; exact absurd h (by simp)
    | diverge => rw [hp] at h; exact absurd h (by simp)
  | fail e => rw [hd] at h; exact absurd h (by simp)
  | panic => rw [hd] at h; exact absurd h (by simp)
  | diverge => rw [hd] at h; exact absurd h (by simp)

/-- parse_char consumes at least one character on success, so the
consumed-nothing check inside the string fold never fires. -/
theorem parse_char_ok_lt {i r : Input} {c : Char}
    (h : parse_char i = .ok r c) : r.length < i.length := by
  unfold parse_char at h
  cases i with
  | nil => exact absurd h (by simp [anychar, PRes.bind])
  | cons a i1 =>
    simp only [anychar, PRes.bind] at h
    by_cases ha : a = '"'
    · rw [if_pos ha] at h; exact absurd h (by simp)
    · rw [if_neg ha] at h
      by_cases hb : a = '\\'
      · rw [if_pos hb] at h
        cases i1 with
        | nil => exact absurd h (by simp [anychar, PRes.bind])
        | cons b i2 =>
          simp only [anychar, PRes.bind] at h
          split at h
          all_goals first
            | (cases h; simp only [List.length_cons]; omega)
            | (refine Nat.lt_trans (unicode_escape_ok_length h) ?_
               simp only [List.length_cons]
               omega)
            | exact absurd h (by intro hh; cases hh)
      · rw [if_neg hb] at h
        cases h
        simp

theorem bind_not_err {α β : Type} (r : PRes α) (f : Input → α → PRes β)
    (h1 : r.isErr = false) (h2 : ∀ i a, (f i a).isErr = false) :
    (r.bind f).isErr = false := by
  cases r with
  | ok i a => exact h2 i a
  | err e => simp [PRes.isErr] at h1
  | fail e => rfl
  | panic => rfl
  | diverge => rfl

/-- The string fold never produces a recoverable error: a failing
parse_char ends the fold successfully, failures and panics propagate,
and the consumed-nothing check never fires because parse_char always
consumes on success. -/
theorem foldChars_not_err (fuel : Nat) :
    ∀ (i : Input) (acc : List Char), (foldChars fuel i acc).isErr = false := by
  induction fuel with
  | zero => intro i acc; rfl
  | succ f ih =>
    intro i acc
    show (match parse_char i with
      | .ok i1 c =>
        if i1.length = i.length then PRes.err (fromErrorKind i .many0K)
        else foldChars f i1 (acc ++ [c])
      | .err _ => .ok i acc
      | .fail e => .fail e
      | .panic => .panic
      | .diverge => .diverge).isErr = false
    cases hp : parse_char i with
    | ok i1 c =>
      have hlt := parse_char_ok_lt hp
      dsimp only
      rw [if_neg (by omega)]
      exact ih i1 (acc ++ [c])
    | err e => rfl
    | fail e => rfl
    | panic => rfl
    | diverge => rfl

/-- fn string never produces a recoverable error: both the opening and
the closing quote are cut, and the fold in between never errs
recoverably. -/
theorem stringP_not_err (i : Input) : (stringP i).isErr = false := by
  unfold stringP
  rw [pcontext_isErr]
  unfold ppreceded pterminated
  refine bind_not_err _ _ (pcut_not_err _ _) ?_
  intro i1 _
  refine bind_not_err _ _ (foldChars_not_err _ _ _) ?_
  intro i2 a
  exact bind_not_err _ _ (pcut_not_err _ _) (fun _ _ => rfl)

/-! ## Whitespace lemmas -/

theorem dropWhile_all {p : Char → Bool} :
    ∀ {l : List Char}, (∀ c ∈ l, p c = true) → l.dropWhile p = [] := by
  intro l h
  induction l with
  | nil => rfl
  | cons c r ih =>
    rw [List.dropWhile_cons, if_pos (h c (by simp))]
    exact ih (fun x hx => h x (by simp [hx]))

theorem dropWhile_nil_of_takeWhile_nil {p : Char → Bool} {l : List Char}
    (h : l.takeWhile p = []) : l.dropWhile p = l := by
  cases l with
  | nil => rfl
  | cons c r =>
    rw [List.takeWhile_cons] at h
    rw [List.dropWhile_cons]
    by_cases hp : p c = true
    · rw [if_pos hp] at h; exact absurd h (by simp)
    · rw [if_neg (by simpa using hp)]

theorem takeWhile_dropWhile_nil (p : Char → Bool) :
    ∀ l : List Char, (l.dropWhile p).takeWhile p = [] := by
  intro l
  induction l with
  | nil => rfl
  | cons c r ih =>
    rw [List.dropWhile_cons]
    by_cases hp : p c = true
    · rw [if_pos hp]; exact ih
    · rw [if_neg (by simpa using hp), List.takeWhile_cons, if_neg (by simpa using hp)]

theorem length_dropWhile_lt {p : Char → Bool} {l : List Char}
    (h : ¬(l.takeWhile p).isEmpty) : (l.dropWhile p).length < l.length := by
  cases l with
  | nil => simp at h
  | cons c r =>
    rw [List.takeWhile_cons] at h
    by_cases hp : p c = true
    · rw [List.dropWhile_cons, if_pos hp]
      calc (r.dropWhile p).length ≤ r.length :=
            (List.dropWhile_suffix p).sublist.length_le
        _ < (c :: r).length := by simp
    · rw [if_neg (by simpa using hp)] at h
      simp at h

/-- With fuel at least two, the whitespace loop at the head of
json_value deterministically consumes the maximal leading whitespace
run: multispace1 strips it whole in one iteration and fails on the
second. -/
theorem many0Ws_ge2 (fuel : Nat) (i : Input) :
    many0Ws (fuel + 2) i = .ok (i.dropWhile isWS) () := by
  show (match multispace1 i with
    | .ok i1 _ =>
      if i1.length = i.length then PRes.err (fromErrorKind i .many0K)
      else many0Ws (fuel + 1) i1
    | .err _ => .ok i ()
    | .fail e => .fail e
    | .panic => .panic
    | .diverge => .diverge) = .ok (i.dropWhile isWS) ()
  unfold multispace1
  by_cases hw : (i.takeWhile isWS).isEmpty
  · rw [if_pos hw]
    dsimp only
    rw [dropWhile_nil_of_takeWhile_nil (by simpa using hw)]
  · rw [if_neg hw]
    dsimp only
    have hlt := length_dropWhile_lt hw
    rw [if_neg (by omega)]
    show (match multispace1 (i.dropWhile isWS) with
      | .ok i1 _ =>
        if i1.length = (i.dropWhile isWS).length then
          PRes.err (fromErrorKind (i.dropWhile isWS) .many0K)
        else many0Ws fuel i1
      | .err _ => .ok (i.dropWhile isWS) ()
      | .fail e => .fail e
      | .panic => .panic
      | .diverge => .diverge) = .ok (i.dropWhile isWS) ()
    unfold multispace1
    rw [if_pos (by simp [takeWhile_dropWhile_nil])]

/-- One-step unfolding of json_value at positive fuel. -/
theorem json_value_succ (fuel : Nat) (i : Input) :
    json_value (fuel + 1) i =
      (many0Ws (fuel + 1) i).bind fun i1 _ =>
        (ppeek anychar i1).bind fun i2 c =>
          if c = '{' then pmap (hashP fuel) JsonValue.Object i2
          else if c = '[' then pmap (arrayP fuel) JsonValue.Array i2
          else if c = '"' then pmap stringP JsonValue.Str i2
          else if c = '-' ∨ ('0' ≤ c ∧ c ≤ '9') then pmap double JsonValue.Num i2
          else if c = 'f' then pmap parse_false JsonValue.Boolean i2
          else if c = 't' then pmap parse_true JsonValue.Boolean i2
          else if c = 'n' then pmap nullP (fun _ => JsonValue.Null) i2
          else .fail (fromChar i2 c) := rfl

/-! ## Arithmetic lemmas for the hex decoder -/

theorem hexAccum_lt :
    ∀ (l : List Char) (acc v : Nat), acc < 65536 →
      hexAccum l acc = some v → v < 65536 := by
  intro l
  induction l with
  | nil =>
    intro acc v h hv
    unfold hexAccum at hv
    cases hv
    exact h
  | cons c r ih =>
    intro acc v h hv
    unfold hexAccum at hv
    cases hd : hexDigit? c with
    | some d =>
      rw [hd] at hv
      dsimp only at hv
      split at hv
      · next hlt => exact ih _ v hlt hv
      · exact absurd hv (by simp)
    | none => rw [hd] at hv; exact absurd hv (by simp)

theorem u16Some_lt {s : List Char} {v : Nat}
    (h : u16FromStrRadix16 s = some v) : v < 65536 := by
  unfold u16FromStrRadix16 at h
  cases s with
  | nil => exact absurd h (by simp)
  | cons c rest =>
    dsimp only at h
    by_cases hp : c = '+'
    · rw [if_pos hp] at h
      by_cases he : rest.isEmpty
      · rw [if_pos he] at h; exact absurd h (by simp)
      · rw [if_neg he] at h; exact hexAccum_lt rest 0 v (by omega) h
    · rw [if_neg hp] at h
      by_cases hm : c = '-'
      · rw [if_pos hm] at h; exact absurd h (by simp)
      · rw [if_neg hm] at h; exact hexAccum_lt (c :: rest) 0 v (by omega) h

/-! ## Unicode-escape decoding lemmas -/

theorem ptake_append {s r : Input} (h : s.length = 4) :
    ptake 4 (s ++ r) = .ok r s := by
  unfold ptake
  rw [if_neg (by simp [List.length_append]; omega)]
  rw [← h, List.drop_left, List.take_left]

theorem u16_hex_append {s r : Input} {v : Nat} (h4 : s.length = 4)
    (hv : u16FromStrRadix16 s = some v) : u16_hex (s ++ r) = .ok r v := by
  unfold u16_hex
  rw [ptake_append h4]
  dsimp only [PRes.bind]
  rw [hv]

theorem ueDirect_append {s r : Input} {v : Nat} (h4 : s.length = 4)
    (hv : u16FromStrRadix16 s = some v) (hns : ¬(0xD800 ≤ v ∧ v < 0xE000)) :
    ueDirect (s ++ r) = .ok r v := by
  unfold ueDirect
  rw [u16_hex_append h4 hv]
  dsimp only [PRes.bind]
  rw [if_pos hns]

theorem ueDirect_append_surr {s r : Input} {v : Nat} (h4 : s.length = 4)
    (hv : u16FromStrRadix16 s = some v) (hs : 0xD800 ≤ v ∧ v < 0xE000) :
    ueDirect (s ++ r) = .err (fromErrorKind (s ++ r) .verifyK) := by
  unfold ueDirect
  rw [u16_hex_append h4 hv]
  dsimp only [PRes.bind]
  rw [if_neg (not_not_intro hs)]

theorem uePair_append {s t r : Input} {hi lo : Nat}
    (hs4 : s.length = 4) (ht4 : t.length = 4)
    (hhi : u16FromStrRadix16 s = some hi) (hlo : u16FromStrRadix16 t = some lo)
    (h1 : 0xD800 ≤ hi) (h2 : hi < 0xDC00) (h3 : 0xDC00 ≤ lo) (h4 : lo < 0xE000) :
    uePair (s ++ ('\\' :: 'u' :: (t ++ r))) =
      .ok r (((hi - 0xD800) <<< 10) + (lo - 0xDC00) + 0x10000) := by
  unfold uePair pseparatedPair
  rw [u16_hex_append hs4 hhi]
  dsimp only [PRes.bind]
  have htag : ptag ['\\', 'u'] ('\\' :: 'u' :: (t ++ r)) = .ok (t ++ r) ['\\', 'u'] := rfl
  rw [htag]
  dsimp only [PRes.bind]
  rw [u16_hex_append ht4 hlo]
  dsimp only [PRes.bind]
  rw [if_pos ⟨⟨h1, h2⟩, ⟨h3, h4⟩⟩]

theorem unicode_escape_of_alt_ok {i r : Input} {n : Nat}
    (h : palt2 ueDirect uePair i = .ok r n) :
    unicode_escape i =
      (match charFromU32 n with
       | some c => PRes.ok r c
       | none => PRes.err (fromErrorKind i .mapOptK)) := by
  unfold unicode_escape
  rw [h]

theorem unicode_escape_direct {s r : Input} {v : Nat} (h4 : s.length = 4)
    (hv : u16FromStrRadix16 s = some v) (hns : ¬(0xD800 ≤ v ∧ v < 0xE000)) :
    unicode_escape (s ++ r) = .ok r (Char.ofNat v) := by
  unfold unicode_escape palt2
  rw [ueDirect_append h4 hv hns]
  dsimp only
  have hlt : v < 65536 := u16Some_lt hv
  unfold charFromU32
  rcases Nat.lt_or_ge v 0xD800 with hlo | hhi
  · rw [if_pos hlo]
  · rw [if_neg (by omega), if_pos (by constructor <;> omega)]

theorem unicode_escape_pair {s t r : Input} {hi lo : Nat}
    (hs4 : s.length = 4) (ht4 : t.length = 4)
    (hhi : u16FromStrRadix16 s = some hi) (hlo : u16FromStrRadix16 t = some lo)
    (h1 : 0xD800 ≤ hi) (h2 : hi < 0xDC00) (h3 : 0xDC00 ≤ lo) (h4 : lo < 0xE000) :
    unicode_escape (s ++ ('\\' :: 'u' :: (t ++ r))) =
      .ok r (Char.ofNat (((hi - 0xD800) <<< 10) + (lo - 0xDC00) + 0x10000)) := by
  have hd := @ueDirect_append_surr s ('\\' :: 'u' :: (t ++ r)) hi hs4 hhi
    ⟨by omega, by omega⟩
  have hp := @uePair_append s t r hi lo hs4 ht4 hhi hlo h1 h2 h3 h4
  have hsh : (hi - 0xD800) <<< 10 = (hi - 0xD800) * 1024 := by
    rw [Nat.shiftLeft_eq]
  have hb1 : 0x10000 ≤ ((hi - 0xD800) <<< 10) + (lo - 0xDC00) + 0x10000 := by omega
  have hb2 : ((hi - 0xD800) <<< 10) + (lo - 0xDC00) + 0x10000 < 0x110000 := by
    rw [hsh]; omega
  generalize hV : ((hi - 0xD800) <<< 10) + (lo - 0xDC00) + 0x10000 = V at hp hb1 hb2 ⊢
  have hcf : charFromU32 V = some (Char.ofNat V) := by
    unfold charFromU32
    rw [if_neg (by omega), if_pos (by constructor <;> omega)]
  have halt : palt2 ueDirect uePair (s ++ ('\\' :: 'u' :: (t ++ r))) = .ok r V := by
    unfold palt2
    rw [hd]
    dsimp only
    exact hp
  rw [unicode_escape_of_alt_ok halt, hcf]

theorem multispace1_head_not_ws {c : Char} {r : Input} (h : isWS c = false) :
    multispace1 (c :: r) = .err (fromErrorKind (c :: r) .multiSpaceK) := by
  simp [multispace1, List.takeWhile_cons, h]

/-- With positive fuel, the whitespace loop succeeds without consuming
anything when the first character is not whitespace. -/
theorem many0Ws_head_not_ws (fuel : Nat) {c : Char} {r : Input}
    (h : isWS c = false) : many0Ws (fuel + 1) (c :: r) = .ok (c :: r) () := by
  show (match multispace1 (c :: r) with
    | .ok i1 _ =>
      if i1.length = (c :: r).length then PRes.err (fromErrorKind (c :: r) .many0K)
      else many0Ws fuel i1
    | .err _ => .ok (c :: r) ()
    | .fail e => .fail e
    | .panic => .panic
    | .diverge => .diverge) = .ok (c :: r) ()
  rw [multispace1_head_not_ws h]

/-- A dispatch character of the number production is never
whitespace. -/
theorem digit_not_ws {c : Char} (h : c = '-' ∨ ('0' ≤ c ∧ c ≤ '9')) :
    isWS c = false := by
  rcases h with h | ⟨h1, h2⟩
  · subst h; rfl
  · have v1 : ('0' : Char).val ≤ c.val := h1
    have v2 : c.val ≤ ('9' : Char).val := h2
    unfold isWS
    have n1 : ¬(c = ' ') := by
      intro e; subst e; revert v1; decide
    have n2 : ¬(c = '\t') := by
      intro e; subst e; revert v1; decide
    have n3 : ¬(c = '\r') := by
      intro e; subst e; revert v1; decide
    have n4 : ¬(c = '\n') := by
      intro e; subst e; revert v1; decide
    simp [n1, n2, n3, n4]

/-! ## Claim theorems -/

/-- C1, counterexample.  The claim states that a valid value followed
by non-whitespace garbage fails with a trailing-input error; in fact
the top-level parse succeeds on such input, returning the value and
leaving the garbage as unconsumed remainder. -/
theorem claim_C1_counterexample :
    (parse "\x7b\x7d trailing-garbage".toList).isOk = true := rfl

/-- C1, amended.  fn parse is terminated(json_value, multispace0): it
trims whitespace after the value but never requires full consumption.
Parsing the input consisting of an empty object, a space, and the text
trailing-garbage succeeds with the empty object and the garbage left
over, and the empty object alone also parses with empty remainder. -/
theorem claim_C1_amended :
    parse "\x7b\x7d trailing-garbage".toList =
      .ok "trailing-garbage".toList (JsonValue.Object [])
    ∧ parse "\x7b\x7d".toList = .ok [] (JsonValue.Object []) :=
  ⟨rfl, rfl⟩

/-- C2, counterexample.  The claim states a missing closing bracket is
always a FATAL failure; but the closing-bracket parser of fn array
sits outside every cut, so the input left-bracket one, which lacks the
closing bracket, fails with a recoverable error, not a fatal one. -/
theorem claim_C2_counterexample :
    (parse "[1".toList).isFail = false ∧ (parse "[1".toList).isErr = true :=
  ⟨rfl, rfl⟩

/-- C2, amended.  For objects the claim holds: every failure of fn
hash is fatal (never recoverable), for any fuel and input, because the
entire body including the closing brace sits inside cut; an object
missing its closing brace fails fatally.  For arrays it does not: a
missing closing bracket yields a recoverable error because the
closing-bracket parser is outside the cuts. -/
theorem claim_C2_amended :
    (∀ (fuel : Nat) (i : Input), (hashP fuel i).isErr = false)
    ∧ (parse "\x7b\"a\":1".toList).isFail = true
    ∧ (parse "[1".toList).isErr = true :=
  ⟨hashP_not_err, rfl, rfl⟩

/-- C3.  The claim says a backslash-u escape not followed by four hex
digits yields a FATAL invalid-escape error as a structured value and
never crashes; but u16_hex calls u16::from_str_radix(s, 16).unwrap()
on whatever four characters follow, so the string consisting of a
backslash-u and four Z characters panics instead of returning an
error.  An unrecognized escape designator does return a structured
fatal failure, as claimed. -/
theorem claim_C3_panic :
    parse "\"\\uZZZZ\"".toList = .panic
    ∧ (parse "\"\\q\"".toList).isFail = true :=
  ⟨rfl, rfl⟩

/-- C4.  The Unicode escape decoder: a four-hex-digit code unit
outside the surrogate range maps directly to that scalar; a high
surrogate followed by backslash-u and a low surrogate combines by the
pair formula; the emoji surrogate pair yields the single scalar
U+1F600; a lone high surrogate makes the parse fail. -/
theorem claim_C4 :
    (∀ (s r : Input) (v : Nat), s.length = 4 →
       u16FromStrRadix16 s = some v → ¬(0xD800 ≤ v ∧ v < 0xE000) →
       unicode_escape (s ++ r) = .ok r (Char.ofNat v))
    ∧ (∀ (s t r : Input) (hi lo : Nat), s.length = 4 → t.length = 4 →
         u16FromStrRadix16 s = some hi → u16FromStrRadix16 t = some lo →
         0xD800 ≤ hi → hi < 0xDC00 → 0xDC00 ≤ lo → lo < 0xE000 →
         unicode_escape (s ++ ('\\' :: 'u' :: (t ++ r))) =
           .ok r (Char.ofNat (((hi - 0xD800) <<< 10) + (lo - 0xDC00) + 0x10000)))
    ∧ parse "\"\\uD83D\\uDE00\"".toList = .ok [] (JsonValue.Str [Char.ofNat 0x1F600])
    ∧ (parse "\"\\uD83D\"".toList).isFail = true := by
  refine ⟨?_, ?_, rfl, rfl⟩
  · intro s r v h4 hv hns
    exact unicode_escape_direct h4 hv hns
  · intro s t r hi lo hs4 ht4 hhi hlo h1 h2 h3 h4
    exact unicode_escape_pair hs4 ht4 hhi hlo h1 h2 h3 h4

/-- C4, witness: the general clauses evaluated at the concrete escape
0041 (letter A) and at the concrete surrogate pair D83D DE00. -/
theorem claim_C4_witness :
    unicode_escape ("0041".toList ++ "!".toList) = .ok "!".toList (Char.ofNat 65)
    ∧ unicode_escape ("D83D".toList ++ ('\\' :: 'u' :: ("DE00".toList ++ "\"".toList))) =
        .ok "\"".toList (Char.ofNat 0x1F600) := by
  constructor
  · exact claim_C4.1 "0041".toList "!".toList 65 (by decide) (by decide) (by decide)
  · exact claim_C4.2.1 "D83D".toList "DE00".toList "\"".toList 0xD83D 0xDE00
      (by decide) (by decide) (by decide) (by decide)
      (by decide) (by decide) (by decide) (by decide)

/-- C5, counterexample.  The claim says both trailing-comma inputs
fail FATALLY; the array case actually fails with a recoverable error
(the missing-bracket check is outside the cuts). -/
theorem claim_C5_counterexample :
    (parse "[1,2,]".toList).isFail = false
    ∧ (parse "[1,2,]".toList).isErr = true :=
  ⟨rfl, rfl⟩

/-- C5, amended.  Both trailing-comma inputs are rejected: the array
one with a recoverable error, the object one with a fatal failure. -/
theorem claim_C5_amended :
    (parse "[1,2,]".toList).isErr = true
    ∧ (parse "\x7b\"a\":1,\x7d".toList).isFail = true :=
  ⟨rfl, rfl⟩

/-- C6, counterexample.  The claim says every input that exhausts
before a closing quote fails with a FATAL failure; the unterminated
string with a malformed backslash-u escape panics instead of returning
a fatal failure. -/
theorem claim_C6_counterexample :
    (parse "\"\\uZZZZ".toList).isFail = false
    ∧ parse "\"\\uZZZZ".toList = .panic :=
  ⟨rfl, rfl⟩

/-- C6, amended.  Once fn string runs, it never produces a recoverable
error on any input (every failure past the opening quote is fatal, or
a panic through the malformed backslash-u unwrap): an unterminated
plain string fails fatally, an unterminated string with four non-hex
characters after backslash-u panics. -/
theorem claim_C6_amended :
    (∀ i : Input, (stringP i).isErr = false)
    ∧ (parse "\"abc".toList).isFail = true
    ∧ parse "\"\\uZZZZ".toList = .panic :=
  ⟨stringP_not_err, rfl, rfl⟩

/-- C7.  Parsing an object with a duplicated key succeeds and the key
maps to the value of its last occurrence (last write wins). -/
theorem claim_C7 :
    parse "\x7b\"x\":1,\"x\":2\x7d".toList =
      .ok [] (JsonValue.Object [("x".toList, JsonValue.Num "2".toList)]) := rfl

/-- C8.  The value dispatcher: leading whitespace characters are
skipped without changing the outcome; a peeked (unconsumed) first
character routes to the object, array, string, number, false, true,
and null productions; any other non-whitespace character yields a
fatal failure naming that character. -/
theorem claim_C8 :
    (∀ (fuel : Nat) (c : Char) (r : Input), isWS c = true →
       json_value (fuel + 2) (c :: r) = json_value (fuel + 2) r)
    ∧ (∀ (fuel : Nat) (r : Input),
         json_value (fuel + 1) ('{' :: r) = pmap (hashP fuel) JsonValue.Object ('{' :: r))
    ∧ (∀ (fuel : Nat) (r : Input),
         json_value (fuel + 1) ('[' :: r) = pmap (arrayP fuel) JsonValue.Array ('[' :: r))
    ∧ (∀ (fuel : Nat) (r : Input),
         json_value (fuel + 1) ('"' :: r) = pmap stringP JsonValue.Str ('"' :: r))
    ∧ (∀ (fuel : Nat) (c : Char) (r : Input), (c = '-' ∨ ('0' ≤ c ∧ c ≤ '9')) →
         json_value (fuel + 1) (c :: r) = pmap double JsonValue.Num (c :: r))
    ∧ (∀ (fuel : Nat) (r : Input),
         json_value (fuel + 1) ('f' :: r) = pmap parse_false JsonValue.Boolean ('f' :: r))
    ∧ (∀ (fuel : Nat) (r : Input),
         json_value (fuel + 1) ('t' :: r) = pmap parse_true JsonValue.Boolean ('t' :: r))
    ∧ (∀ (fuel : Nat) (r : Input),
         json_value (fuel + 1) ('n' :: r) = pmap nullP (fun _ => JsonValue.Null) ('n' :: r))
    ∧ (∀ (fuel : Nat) (c : Char) (r : Input), isWS c = false →
         c ≠ '{' → c ≠ '[' → c ≠ '"' → ¬(c = '-' ∨ ('0' ≤ c ∧ c ≤ '9')) →
         c ≠ 'f' → c ≠ 't' → c ≠ 'n' →
         json_value (fuel + 1) (c :: r) = .fail (fromChar (c :: r) c)) := by
  refine ⟨?_, fun _ _ => rfl, fun _ _ => rfl, fun _ _ => rfl, ?_,
    fun _ _ => rfl, fun _ _ => rfl, fun _ _ => rfl, ?_⟩
  · intro fuel c r h
    rw [json_value_succ (fuel + 1) (c :: r), json_value_succ (fuel + 1) r,
      many0Ws_ge2 fuel (c :: r), many0Ws_ge2 fuel r,
      List.dropWhile_cons, if_pos (by simp [h])]
  · intro fuel c r h
    have hnw : isWS c = false := digit_not_ws h
    have hne : ∀ x : Char, ¬('0' ≤ x ∧ x ≤ '9') → x ≠ '-' → ¬(c = x) := by
      intro x hx hxm e
      rcases h with h | h
      · rw [e] at h; exact hxm h
      · rw [e] at h; exact hx h
    rw [json_value_succ, many0Ws_head_not_ws fuel hnw]
    dsimp only [PRes.bind, ppeek, anychar]
    rw [if_neg (hne '{' (by decide) (by decide)),
      if_neg (hne '[' (by decide) (by decide)),
      if_neg (hne '"' (by decide) (by decide)),
      if_pos h]
  · intro fuel c r hw h1 h2 h3 h4 h5 h6 h7
    rw [json_value_succ, many0Ws_head_not_ws fuel hw]
    dsimp only [PRes.bind, ppeek, anychar]
    rw [if_neg h1, if_neg h2, if_neg h3, if_neg h4, if_neg h5, if_neg h6, if_neg h7]

/-- C8, witness: the dispatcher applied to the concrete unexpected
character commercial-at fails fatally naming it, and to concrete
digits and braces routes to the matching production. -/
theorem claim_C8_witness :
    json_value 1 ['@'] = .fail (fromChar ['@'] '@')
    ∧ json_value 1 ('5' :: []) = pmap double JsonValue.Num ('5' :: [])
    ∧ json_value 2 (' ' :: 't' :: []) = json_value 2 ('t' :: []) := by
  refine ⟨?_, ?_, ?_⟩
  · exact claim_C8.2.2.2.2.2.2.2.2 0 '@' [] (by decide) (by decide) (by decide)
      (by decide) (by decide) (by decide) (by decide) (by decide)
  · exact claim_C8.2.2.2.2.1 0 '5' [] (by decide)
  · exact claim_C8.1 0 ' ' ['t'] (by decide)

/-- C9, counterexample.  The claim says the most complete iteration
(step-4) restricts the top level to object, array, and null; but
step-4's fn parse goes through json_value and accepts a bare boolean
literal at the top level. -/
theorem claim_C9_counterexample :
    parse "true".toList = .ok [] (JsonValue.Boolean true) := rfl

/-- C9, amended.  The object/array/null top-level restriction belongs
to the earlier step-1 iteration, whose fn parse rejects a bare true
even though its inner dispatcher accepts it; the most complete
iteration, step-4, accepts all six productions at the top level. -/
theorem claim_C9_amended :
    parse "true".toList = .ok [] (JsonValue.Boolean true)
    ∧ (Step1.parse1 "true".toList).isErr = true
    ∧ (∀ fuel : Nat,
        Step1.json_value1 (fuel + 2) "true".toList = .ok [] (JsonValue.Boolean true)) :=
  ⟨rfl, rfl, fun _ => rfl⟩

/-- C10.  For the empty input and for every input consisting only of
whitespace, the top-level parse returns a recoverable error: the
dispatcher's peeked lookahead fails recoverably at end of input. -/
theorem claim_C10 (i : Input) (h : ∀ c ∈ i, isWS c = true) :
    (parse i).isErr = true := by
  have hdrop : i.dropWhile isWS = [] := dropWhile_all h
  unfold parse pterminated
  rw [show 4 * i.length + 4 = (4 * i.length + 3) + 1 from rfl, json_value_succ,
    show 4 * i.length + 3 + 1 = (4 * i.length + 2) + 2 from rfl, many0Ws_ge2, hdrop]
  rfl

/-- C10, witness: the empty input and a concrete all-whitespace input
both produce a recoverable error. -/
theorem claim_C10_witness :
    (parse "".toList).isErr = true ∧ (parse "  \t\r\n".toList).isErr = true :=
  ⟨claim_C10 _ (by decide), claim_C10 _ (by decide)⟩

end Meetup
